import Mathlib

/-!
Shallow embedding of the clk `eth` extension (src/python/eth.py) and proofs
about its chain-walking, ABI-argument-coercion, response-normalization and
dispatch logic.
-/

namespace EthExt

/-! ### Python-style primitive helpers -/

/-- Python `str.split(sep)` (single-character separator), on a character list.
`pySplit '=' "a=b"` gives `[['a'], ['b']]`; splitting the empty string gives
one empty part, as in Python. -/
def pySplit (sep : Char) : List Char → List (List Char)
  | [] => [[]]
  | c :: rest =>
    match pySplit sep rest with
    | [] => [[]]
    | r :: rs => if c = sep then [] :: r :: rs else (c :: r) :: rs

theorem pySplit_ne_nil (sep : Char) (l : List Char) : pySplit sep l ≠ [] := by
  cases l with
  | nil => simp [pySplit]
  | cons c rest =>
    simp only [pySplit]
    split
    · simp
    · split <;> simp

theorem pySplit_length (sep : Char) (l : List Char) :
    (pySplit sep l).length = l.count sep + 1 := by
  induction l with
  | nil => simp [pySplit]
  | cons c rest ih =>
    simp only [pySplit]
    rcases h : pySplit sep rest with _ | ⟨r, rs⟩
    · exact absurd h (pySplit_ne_nil sep rest)
    · rw [h] at ih
      by_cases hc : c = sep
      · subst hc
        simp_all [List.count_cons]
      · simp_all [List.count_cons, hc]

/-- Python `str.startswith` (kernel-reducible rendering on the character
list). -/
def strStartsWith (s pre : String) : Bool := pre.data.isPrefixOf s.data

/-- Python `str.endswith` (kernel-reducible rendering on the character
list). -/
def strEndsWith (s post : String) : Bool := post.data.isSuffixOf s.data

/-- Python slicing `s[n:]` (by code points, as in Python). -/
def strDrop (s : String) (n : Nat) : String := String.mk (s.data.drop n)

/-- ASCII lowercasing of one character, as `str.lower` does on ASCII. -/
def charLower (c : Char) : Char :=
  if 'A' ≤ c ∧ c ≤ 'Z' then Char.ofNat (c.toNat + 32) else c

/-- Python `str.lower` (restricted to its ASCII behaviour, which is all the
truthy-token comparison needs). -/
def strLower (s : String) : String := String.mk (s.data.map charLower)

/-- Digits-only decimal accumulation for `parsePyInt`. -/
def decDigitsAux (acc : Nat) : List Char → Option Nat
  | [] => some acc
  | c :: rest =>
    if '0' ≤ c ∧ c ≤ '9' then decDigitsAux (acc * 10 + (c.toNat - 48)) rest
    else none

/-- A non-empty all-digit character list read as a decimal number. -/
def decDigits : List Char → Option Nat
  | [] => none
  | l => decDigitsAux 0 l

/-- Python `int(s)` on decimal strings: optional sign followed by at least one
digit; anything else raises. -/
def parsePyInt (s : String) : Option Int :=
  match s.data with
  | '-' :: rest => (decDigits rest).map (fun n => -(n : Int))
  | '+' :: rest => (decDigits rest).map (fun n => (n : Int))
  | l => (decDigits l).map (fun n => (n : Int))

/-- Value of one hexadecimal digit character, if any (Python `bytes.fromhex`
accepts both cases). -/
def hexDigit (c : Char) : Option Nat :=
  if '0' ≤ c ∧ c ≤ '9' then some (c.toNat - 48)
  else if 'a' ≤ c ∧ c ≤ 'f' then some (c.toNat - 87)
  else if 'A' ≤ c ∧ c ≤ 'F' then some (c.toNat - 55)
  else none

/-- Python `bytes.fromhex` on a whitespace-free string: consume hex digits two
at a time; fail on a non-hex digit or an odd number of digits. -/
def hexPairs : List Char → Option (List Nat)
  | [] => some []
  | [_] => none
  | c1 :: c2 :: rest => do
    let hi ← hexDigit c1
    let lo ← hexDigit c2
    let r ← hexPairs rest
    pure ((16 * hi + lo) :: r)

/-- UTF-8 encoding of one Unicode code point, as byte values. -/
def utf8Byte (n : Nat) : List Nat :=
  if n < 0x80 then [n]
  else if n < 0x800 then [0xC0 + n / 0x40, 0x80 + n % 0x40]
  else if n < 0x10000 then
    [0xE0 + n / 0x1000, 0x80 + (n / 0x40) % 0x40, 0x80 + n % 0x40]
  else
    [0xF0 + n / 0x40000, 0x80 + (n / 0x1000) % 0x40,
     0x80 + (n / 0x40) % 0x40, 0x80 + n % 0x40]

/-- Python `Web3.to_bytes(text=s)`: the UTF-8 encoding of `s` as byte values. -/
def utf8Encode (s : String) : List Nat :=
  s.toList.flatMap (fun c => utf8Byte c.toNat)

/-- Lowercase hex character for a digit value below 16. -/
def hexChar (n : Nat) : Char :=
  if n < 10 then Char.ofNat (48 + n) else Char.ofNat (87 + n)

/-- `HexBytes.hex()`: the `0x`-prefixed lowercase hexadecimal rendering of a
byte sequence. -/
def bytesToHex (bs : List Nat) : String :=
  "0x" ++ String.mk (bs.flatMap (fun b => [hexChar (b / 16), hexChar (b % 16)]))

/-! ### ABI argument coercion (`ContractCallerArgs.coerce` / `convert`) -/

/-- One entry of an ABI function's `inputs` list: declared name and type. -/
structure AbiInput where
  name : String
  type : String
deriving DecidableEq, Repr

/-- A Python value produced by argument coercion. -/
inductive PyValue where
  | vStr : String → PyValue
  | vInt : Int → PyValue
  | vBool : Bool → PyValue
  | vBytes : List Nat → PyValue
deriving DecidableEq, Repr

/-- Errors that `convert`/`coerce` can raise (uncaught Python exceptions). -/
inductive ConvErr where
  /-- `ValueError` from unpacking `value.split("=")` into two names. -/
  | unpackError
  /-- `IndexError` from `[input for input in inputs if ...][0]`. -/
  | keyNotFound
  /-- `IndexError` from `inputs[self.number - 1]`. -/
  | indexOutOfRange
  /-- `ValueError` from `int(val)`. -/
  | intParseError
  /-- `json.JSONDecodeError` from `json.loads(val)`. -/
  | jsonError
  /-- `ValueError` from `bytes.fromhex`. -/
  | hexError
deriving DecidableEq, Repr

instance {ε α : Type} [DecidableEq ε] [DecidableEq α] :
    DecidableEq (Except ε α) := fun a b =>
  match a, b with
  | .ok x, .ok y =>
    if h : x = y then .isTrue (by rw [h]) else .isFalse (by simp [h])
  | .error x, .error y =>
    if h : x = y then .isTrue (by rw [h]) else .isFalse (by simp [h])
  | .ok _, .error _ => .isFalse (by simp)
  | .error _, .ok _ => .isFalse (by simp)

/-- The truthy token tuple of `ContractCallerArgs.coerce` for `bool` inputs:
`val in ("true", "True", "1", "t", "yes")`. -/
def boolTruthy (val : String) : Bool :=
  (["true", "True", "1", "t", "yes"] : List String).contains val

/-- The type-dispatch part of `ContractCallerArgs.coerce`. `jsonLoads` stands
for Python's `json.loads` (external standard library); `int(val)` is modelled
by `String.toInt?`, `bytes.fromhex` by `hexPairs`, `Web3.to_bytes(text=...)`
by `utf8Encode`. -/
def coerceVal (jsonLoads : String → Option PyValue) (type : String)
    (val : String) : Except ConvErr PyValue :=
  if strEndsWith type "[]" then
    match jsonLoads val with
    | some v => .ok v
    | none => .error .jsonError
  else if strStartsWith type "uint" then
    match parsePyInt val with
    | some n => .ok (.vInt n)
    | none => .error .intParseError
  else if type = "bool" then
    .ok (.vBool (boolTruthy val))
  else if strStartsWith type "byte" then
    if strStartsWith val "0x" then
      match hexPairs (strDrop val 2).toList with
      | some bs => .ok (.vBytes bs)
      | none => .error .hexError
    else .ok (.vBytes (utf8Encode val))
  else .ok (.vStr val)

/-- The input-resolution part of `ContractCallerArgs.coerce`: a truthy
(non-empty) `key` is looked up among the declared input names (first match,
`IndexError` when absent); an empty `key` means positional lookup at index
`number - 1`, the input's declared name becoming the key. -/
def resolveInput (inputs : List AbiInput) (number : Nat) (key : String) :
    Except ConvErr (AbiInput × String) :=
  if key ≠ "" then
    match inputs.filter (fun i => i.name = key) with
    | [] => .error .keyNotFound
    | i :: _ => .ok (i, key)
  else
    match inputs.get? (number - 1) with
    | none => .error .indexOutOfRange
    | some i => .ok (i, i.name)

/-- `ContractCallerArgs.coerce`: resolve the input, then dispatch the value
coercion on its declared type; the result is the resolved key with the
coerced value. -/
def coerceArg (jsonLoads : String → Option PyValue) (inputs : List AbiInput)
    (number : Nat) (key : String) (val : String) :
    Except ConvErr (String × PyValue) :=
  match resolveInput inputs number key with
  | .error e => .error e
  | .ok (inp, k) =>
    match coerceVal jsonLoads inp.type val with
    | .error e => .error e
    | .ok v => .ok (k, v)

/-- A converted CLI token: either a `{key: value}` mapping or a bare value
(when the resolved key is empty). -/
inductive ConvResult where
  | kv : String → PyValue → ConvResult
  | bare : PyValue → ConvResult
deriving DecidableEq, Repr

/-- The tail of `ContractCallerArgs.convert`: return `{key: val}` when the key
is truthy (non-empty), the bare value otherwise. -/
def mkResult : String × PyValue → ConvResult
  | (k, v) => if k = "" then .bare v else .kv k v

/-- `ContractCallerArgs.convert` for one token, with `number` already
incremented: split on `=` when present (unpacking into exactly two parts,
else a `ValueError`), then coerce. -/
def convertOne (jsonLoads : String → Option PyValue) (inputs : List AbiInput)
    (number : Nat) (value : String) : Except ConvErr ConvResult :=
  if value.toList.contains '=' then
    match pySplit '=' value.toList with
    | [k, v] =>
      (coerceArg jsonLoads inputs number (String.mk k) (String.mk v)).map mkResult
    | _ => .error .unpackError
  else
    (coerceArg jsonLoads inputs number "" value).map mkResult

/-- `convert` over a token list, threading the strictly increasing positional
counter (incremented once per token before coercion). -/
def convertAll (jsonLoads : String → Option PyValue) (inputs : List AbiInput)
    (number : Nat) : List String → Except ConvErr (List ConvResult)
  | [] => .ok []
  | tok :: rest => do
    let r ← convertOne jsonLoads inputs (number + 1) tok
    let rs ← convertAll jsonLoads inputs (number + 1) rest
    pure (r :: rs)

/-! ### `ContractMethod`: missing-name tracking and the `_call` dispatch -/

/-- `ContractMethod.needed_names`: the declared input names that are
non-empty. The Python value is a set; it is modelled as a list compared up to
membership. -/
def needed_names (inputs : List AbiInput) : List String :=
  (inputs.filter (fun i => i.name ≠ "")).map (fun i => i.name)

/-- `ContractMethod.given_names`: the keys of the merged keyword-argument
dictionaries produced by `convert`. -/
def given_names (rs : List ConvResult) : List String :=
  rs.flatMap (fun r => match r with | .kv k _ => [k] | .bare _ => [])

/-- `ContractMethod.missing_names` = `needed_names - given_names`
(set difference, modelled membership-wise on lists). -/
def missing_names (inputs : List AbiInput) (given : List String) : List String :=
  (needed_names inputs).filter (fun n => ¬ n ∈ given)

/-- `ContractMethod.check`: succeeds iff no names are missing; the second
component is the list of names reported in the error message. -/
def checkMethod (inputs : List AbiInput) (given : List String) :
    Bool × List String :=
  let m := missing_names inputs given
  (m.isEmpty, m)

/-- What the `_call` command ends up doing. -/
inductive CallAction where
  /-- `exit(1)` after the failed pre-flight check. -/
  | exitFailure
  /-- the read-only `ContractMethod.call` path. -/
  | doCall
  /-- the state-changing `ContractMethod.transact` path. -/
  | doTransact
deriving DecidableEq, Repr

/-- The transact/call decision of `_call`: with no explicit flag, transact iff
the declared mutability is not `"view"`; with an explicit `--transact`,
transact only if the function is not a view or the interactive confirmation
is answered positively (`confirm` is the user's answer). -/
def selectTransact (mutability : String) (flag : Option Bool) (confirm : Bool) :
    Bool :=
  match flag with
  | none => decide (mutability ≠ "view")
  | some b => b && (decide (mutability ≠ "view") || confirm)

/-- The `_call` command body: pre-flight check first (`exit(1)` on failure,
before any RPC), then the transact/call decision. -/
def callCommand (inputs : List AbiInput) (given : List String)
    (mutability : String) (flag : Option Bool) (confirm : Bool) : CallAction :=
  if !(checkMethod inputs given).1 then .exitFailure
  else if selectTransact mutability flag confirm then .doTransact
  else .doCall

/-! ### Chain walker (`Eth.walk_blocks` / `Eth.walk_transactions`) -/

/-- The canonical all-zero genesis parent hash
(`HexBytes("0x0000...0000")`, 32 zero bytes). -/
def genesisSentinel : List Nat := List.replicate 32 0

/-- A block as `walk_blocks` sees it: its hash, its parent hash and its
transaction hashes (hashes modelled as byte lists). -/
structure Block where
  hash : List Nat
  parentHash : List Nat
  transactions : List (List Nat)
deriving DecidableEq, Repr

/-- `Eth.walk_blocks`, unfolded up to `fuel` blocks: yield the current block,
stop when its parent hash is the genesis sentinel, otherwise fetch the parent
and continue. `fetch h` stands for `w3.eth.get_block(h)`. The Python
generator is potentially infinite; every run that reaches genesis is a run of
this function with large enough fuel. -/
def walk_blocks (fetch : List Nat → Block) : Nat → Block → List Block
  | 0, _ => []
  | fuel + 1, b =>
    b :: (if b.parentHash = genesisSentinel then []
          else walk_blocks fetch fuel (fetch b.parentHash))

/-- A finite backward chain: `Chain fetch head bs` says that starting from
`head` and following parent hashes through `fetch`, the blocks `bs` are
visited and the last one is the genesis block (all-zero parent hash). -/
inductive Chain (fetch : List Nat → Block) : Block → List Block → Prop where
  | genesis (b : Block) (hg : b.parentHash = genesisSentinel) :
      Chain fetch b [b]
  | step (b : Block) (bs : List Block) (hng : b.parentHash ≠ genesisSentinel)
      (htail : Chain fetch (fetch b.parentHash) bs) :
      Chain fetch b (b :: bs)

/-- Whether `walk_transactions` stops after the current block: Python's
`if limit and accum >= limit` (`None` and `0` are both falsy). -/
def stopCheck : Option Nat → Nat → Bool
  | none, _ => false
  | some l, accum => decide (l ≠ 0) && decide (l ≤ accum)

/-- `Eth.walk_transactions` on the per-block receipt lists, with running
accumulator: each block's receipts are emitted whole, and the limit check
runs only after a block has been emitted. -/
def walk_transactions_from {α : Type} (limit : Option Nat) :
    Nat → List (List α) → List α
  | _, [] => []
  | accum, b :: rest =>
    b ++ (if stopCheck limit (accum + b.length) then []
          else walk_transactions_from limit (accum + b.length) rest)

/-- `Eth.walk_transactions(limit)`: `blockTxs` is the stream of per-block
receipt lists obtained from `walk_blocks` and
`wait_for_transaction_receipt`. -/
def walk_transactions {α : Type} (blockTxs : List (List α))
    (limit : Option Nat) : List α :=
  walk_transactions_from limit 0 blockTxs

/-- The cumulative receipt counts at each block boundary, starting from
`acc`. -/
def prefixTotals {α : Type} (acc : Nat) : List (List α) → List Nat
  | [] => []
  | b :: rest => (acc + b.length) :: prefixTotals (acc + b.length) rest

/-- The total number of receipts in the chain. -/
def totalTxs {α : Type} (blockTxs : List (List α)) : Nat :=
  (blockTxs.map List.length).sum

/-- The count the specification predicts for `walk_transactions(limit)`: the
smallest cumulative count at a block boundary that is ≥ `limit`, or the total
available if the chain has fewer. -/
def specCount {α : Type} (limit : Nat) (blockTxs : List (List α)) : Nat :=
  match (prefixTotals 0 blockTxs).find? (fun c => decide (limit ≤ c)) with
  | some c => c
  | none => totalTxs blockTxs

/-! ### History filters (`Eth.history` / `filter_contract` / `take_contracts`) -/

/-- A transaction receipt as the history filters see it: `contractAddress`
(nullable, via `tx.get("contractAddress")`), `from` and `to` (the latter
nullable). -/
structure Receipt where
  contractAddress : Option String
  fromAddr : String
  toAddr : Option String
deriving DecidableEq, Repr

/-- The membership test of `Eth.history`:
`address in [tx.get("contractAddress"), tx["from"], tx["to"]]`. -/
def historyHit (address : String) (tx : Receipt) : Bool :=
  tx.contractAddress = some address ∨ tx.fromAddr = address ∨
    tx.toAddr = some address

/-- `Eth.history(address)` applied to a receipt stream (the output of
`walk_transactions`). -/
def history (address : String) (txs : List Receipt) : List Receipt :=
  txs.filter (historyHit address)

/-- Python truthiness of `tx["contractAddress"]`: `None` and the empty string
are falsy, every other string is truthy. -/
def truthyAddress : Option String → Bool
  | none => false
  | some s => s ≠ ""

/-- `Eth.filter_contract`: keep the receipts with a truthy
`contractAddress`. -/
def filter_contract (txs : List Receipt) : List Receipt :=
  txs.filter (fun tx => truthyAddress tx.contractAddress)

/-- `Eth.take_contracts`: the `contractAddress` of each receipt kept by
`filter_contract` (all of which carry one). -/
def take_contracts (txs : List Receipt) : List String :=
  (filter_contract txs).map (fun tx => tx.contractAddress.getD "")

/-! ### Response normalization (`make_serializable`) -/

/-- A library-native response object: attribute-dictionaries and plain
dictionaries (key/value pair lists), `HexBytes` values, lists, and scalar
leaves. -/
inductive PyObj where
  | attrDict : List (PyObj × PyObj) → PyObj
  | pyDict : List (PyObj × PyObj) → PyObj
  | hexBytes : List Nat → PyObj
  | pyList : List PyObj → PyObj
  | pyStr : String → PyObj
  | pyInt : Int → PyObj
  | pyBool : Bool → PyObj
  | pyNone : PyObj

mutual

/-- `make_serializable`: mapping-like objects become plain dictionaries with
normalized keys and values, `HexBytes` becomes its `0x`-hex text, lists are
normalized element-wise, everything else passes through unchanged. The
Python code rebuilds dictionaries and lists by comprehension, so the input
is never mutated; the embedding is a pure function on `PyObj`. -/
def make_serializable : PyObj → PyObj
  | .attrDict kvs => .pyDict (serializable_pairs kvs)
  | .pyDict kvs => .pyDict (serializable_pairs kvs)
  | .hexBytes bs => .pyStr (bytesToHex bs)
  | .pyList l => .pyList (serializable_list l)
  | .pyStr s => .pyStr s
  | .pyInt n => .pyInt n
  | .pyBool b => .pyBool b
  | .pyNone => .pyNone

/-- Element-wise normalization of a list (`[make_serializable(elem) ...]`). -/
def serializable_list : List PyObj → List PyObj
  | [] => []
  | x :: xs => make_serializable x :: serializable_list xs

/-- `serializable_dict`: normalize each key and value. -/
def serializable_pairs : List (PyObj × PyObj) → List (PyObj × PyObj)
  | [] => []
  | (k, v) :: rest =>
    (make_serializable k, make_serializable v) :: serializable_pairs rest

end

/-! ### `move_to_time` -/

/-- What the `move_to_time` command does. -/
inductive MoveOutcome where
  /-- `click.UsageError` mentioning the current blockchain time and the
  requested time, raised before any RPC. -/
  | usageError (currentTime requested : Int)
  /-- run `eth evm increaseTime <duration>` with the mine flag. -/
  | increaseTime (duration : Int) (andMine : Bool)
deriving DecidableEq, Repr

/-- The `move_to_time` command at whole-second granularity: `requested` is the
parsed target time, `currentTime` the timestamp of the chain's latest block.
A negative duration raises; otherwise `increaseTime` runs. -/
def move_to_time (requested currentTime : Int) (andMine : Bool) : MoveOutcome :=
  let duration := requested - currentTime
  if duration < 0 then .usageError currentTime requested
  else .increaseTime duration andMine

/-! ### Claim C2: bool coercion -/

/-- Modelled from the spec's words, for comparison with the code: true iff the
case-insensitive raw value is one of {"true","1","t","yes"}. -/
def claimBoolTruthy (val : String) : Bool :=
  (["true", "1", "t", "yes"] : List String).contains (strLower val)

/-- C2 counterexample: the claim says case variants such as "TRUE" also yield
true, but the code's membership test `val in ("true","True","1","t","yes")` is
exact, so "TRUE" coerces to false although it is case-insensitively in the
truthy set. -/
theorem C2_counterexample :
    coerceVal (fun _ => none) "bool" "TRUE" = .ok (.vBool false) ∧
    claimBoolTruthy "TRUE" = true ∧
    claimBoolTruthy "T" = true ∧
    coerceVal (fun _ => none) "bool" "T" = .ok (.vBool false) := by
  decide

/-- C2 (amended): for an input of declared type `bool`, coercion yields true
iff the raw value is exactly one of the five tokens
"true", "True", "1", "t", "yes"; every other raw value — including other case
variants such as "TRUE", "T", "Yes" — yields false. -/
theorem C2_bool_coercion (jsonLoads : String → Option PyValue) (val : String) :
    coerceVal jsonLoads "bool" val = .ok (.vBool (boolTruthy val)) ∧
    (coerceVal jsonLoads "bool" val = .ok (.vBool true) ↔
      val ∈ (["true", "True", "1", "t", "yes"] : List String)) ∧
    coerceVal jsonLoads "bool" "True" = .ok (.vBool true) ∧
    coerceVal jsonLoads "bool" "TRUE" = .ok (.vBool false) ∧
    coerceVal jsonLoads "bool" "T" = .ok (.vBool false) ∧
    coerceVal jsonLoads "bool" "Yes" = .ok (.vBool false) := by
  have h : ∀ v : String,
      coerceVal jsonLoads "bool" v = .ok (.vBool (boolTruthy v)) := fun v => rfl
  refine ⟨h val, ?_, rfl, rfl, rfl, rfl⟩
  rw [h val]
  simp only [Except.ok.injEq, PyValue.vBool.injEq, boolTruthy, List.contains]
  exact ⟨fun hb => List.elem_iff.1 hb, fun hm => List.elem_iff.2 hm⟩

/-! ### Claim C5: transact/call mode selection -/

/-- C5: with no explicit flag, dispatch selects transact mode iff the declared
mutability is not "view" (so a view defaults to call); with an explicit
transact request on a "view" function, the transaction proceeds only when the
interactive confirmation is answered positively. -/
theorem C5_dispatch_mode (mutab : String) (confirm : Bool) :
    (selectTransact mutab none confirm = true ↔ mutab ≠ "view") ∧
    (selectTransact "view" (some true) confirm = true ↔ confirm = true) ∧
    (callCommand [] [] mutab none confirm =
      if mutab = "view" then .doCall else .doTransact) ∧
    (callCommand [] [] "view" (some true) confirm =
      if confirm then .doTransact else .doCall) := by
  refine ⟨by simp [selectTransact], ?_, ?_, ?_⟩
  · cases confirm <;> simp [selectTransact]
  · by_cases hm : mutab = "view" <;>
      simp [callCommand, checkMethod, missing_names, needed_names,
        selectTransact, hm]
  · cases confirm <;>
      simp [callCommand, checkMethod, missing_names, needed_names,
        selectTransact]

/-! ### Claim C9: move_to_time refuses targets in the past -/

/-- C9: when the requested target time is earlier than the current blockchain
time, `move_to_time` raises a usage error carrying both times and performs no
time-increase or mining operation. -/
theorem C9_move_to_time (requested currentTime : Int) (andMine : Bool)
    (h : requested < currentTime) :
    move_to_time requested currentTime andMine =
      .usageError currentTime requested ∧
    ∀ d m, move_to_time requested currentTime andMine ≠ .increaseTime d m := by
  have hneg : requested - currentTime < 0 := by omega
  refine ⟨by simp [move_to_time, hneg], ?_⟩
  intro d m
  simp [move_to_time, hneg]

/-- C9 witness: a target 5 seconds in the past is refused. -/
theorem C9_move_to_time_witness :
    move_to_time 0 5 true = .usageError 5 0 ∧
    ∀ d m, move_to_time 0 5 true ≠ .increaseTime d m :=
  C9_move_to_time 0 5 true (by norm_num)

/-! ### Claim C6: type-dispatch of argument coercion -/

/-- C6 counterexample: the declared type "bool" matches none of the claim's
three patterns (does not end with "[]", start with "uint" or start with
"byte"), yet its raw value is not passed through unchanged — it is coerced to
a boolean. -/
theorem C6_counterexample :
    strEndsWith "bool" "[]" = false ∧
    strStartsWith "bool" "uint" = false ∧
    strStartsWith "bool" "byte" = false ∧
    coerceVal (fun _ => none) "bool" "x" ≠ .ok (.vStr "x") ∧
    coerceVal (fun _ => none) "bool" "x" = .ok (.vBool false) := by
  decide

/-- C6 (amended): coercion dispatches on the declared type string — a type
ending in "[]" is handed to the JSON parser; otherwise a type starting with
"uint" is parsed as an integer (uint256 "42" gives 42); otherwise the type
"bool" yields a boolean (per the exact truthy set); otherwise a type starting
with "byte" hex-decodes the remainder when the raw value starts with "0x"
(bytes32 "0xabcd" gives the bytes {0xAB, 0xCD}) and UTF-8-encodes the raw
text otherwise; any remaining type passes the raw string through
unchanged. -/
theorem C6_coerce_dispatch (jsonLoads : String → Option PyValue)
    (type val : String) :
    (strEndsWith type "[]" = true →
      coerceVal jsonLoads type val =
        match jsonLoads val with
        | some v => .ok v
        | none => .error .jsonError) ∧
    (strEndsWith type "[]" = false → strStartsWith type "uint" = true →
      coerceVal jsonLoads type val =
        match parsePyInt val with
        | some n => .ok (.vInt n)
        | none => .error .intParseError) ∧
    (strEndsWith type "[]" = false → strStartsWith type "uint" = false →
      type ≠ "bool" → strStartsWith type "byte" = true →
      strStartsWith val "0x" = true →
      coerceVal jsonLoads type val =
        match hexPairs (strDrop val 2).toList with
        | some bs => .ok (.vBytes bs)
        | none => .error .hexError) ∧
    (strEndsWith type "[]" = false → strStartsWith type "uint" = false →
      type ≠ "bool" → strStartsWith type "byte" = true →
      strStartsWith val "0x" = false →
      coerceVal jsonLoads type val = .ok (.vBytes (utf8Encode val))) ∧
    (strEndsWith type "[]" = false → strStartsWith type "uint" = false →
      type ≠ "bool" → strStartsWith type "byte" = false →
      coerceVal jsonLoads type val = .ok (.vStr val)) ∧
    coerceVal jsonLoads "uint256" "42" = .ok (.vInt 42) ∧
    coerceVal jsonLoads "bytes32" "0xabcd" = .ok (.vBytes [0xAB, 0xCD]) ∧
    coerceVal jsonLoads "bytes32" "hi" = .ok (.vBytes (utf8Encode "hi")) := by
  refine ⟨?_, ?_, ?_, ?_, ?_, rfl, rfl, rfl⟩ <;>
    intros <;> simp_all [coerceVal]

/-- C6 witness: a plain `address` input matches no pattern and is passed
through unchanged. -/
theorem C6_coerce_dispatch_witness :
    coerceVal (fun _ => none) "address" "0xdead" = .ok (.vStr "0xdead") :=
  (C6_coerce_dispatch (fun _ => none) "address" "0xdead").2.2.2.2.1
    rfl rfl (by decide) rfl

/-! ### Claim C4: pre-flight missing-input check -/

/-- C4: `missing_names` is the needed names (non-empty declared input names)
minus the given ones; whenever it is non-empty the pre-flight check fails,
the error reports exactly the missing names, and `_call` exits before either
the call or the transact path runs. For inputs {a, b} and tokens ["a=1"], the
resolved names are {a} and the missing names are {b}. -/
theorem C4_preflight (inputs : List AbiInput) (given : List String)
    (mutab : String) (flag : Option Bool) (confirm : Bool)
    (h : missing_names inputs given ≠ []) :
    callCommand inputs given mutab flag confirm = .exitFailure ∧
    (checkMethod inputs given).1 = false ∧
    (checkMethod inputs given).2 = missing_names inputs given ∧
    (∀ n, n ∈ missing_names inputs given ↔
      n ∈ needed_names inputs ∧ ¬ n ∈ given) ∧
    (convertAll (fun _ => none) [⟨"a", "uint256"⟩, ⟨"b", "uint256"⟩] 0
        ["a=1"]).map given_names = .ok ["a"] ∧
    missing_names [⟨"a", "uint256"⟩, ⟨"b", "uint256"⟩] ["a"] = ["b"] := by
  have hck : (checkMethod inputs given).1 = false := by
    simp [checkMethod, List.isEmpty_eq_false, h]
  refine ⟨?_, hck, rfl, ?_, by decide, by decide⟩
  · simp [callCommand, hck]
  · intro n
    simp [missing_names, List.mem_filter]

/-- C4 witness: the function with inputs {a, b} and only "a" resolved exits
with a failure naming "b". -/
theorem C4_preflight_witness :
    callCommand [⟨"a", "uint256"⟩, ⟨"b", "uint256"⟩] ["a"] "view" none false =
      .exitFailure ∧
    (checkMethod [⟨"a", "uint256"⟩, ⟨"b", "uint256"⟩] ["a"]).1 = false ∧
    (checkMethod [⟨"a", "uint256"⟩, ⟨"b", "uint256"⟩] ["a"]).2 =
      missing_names [⟨"a", "uint256"⟩, ⟨"b", "uint256"⟩] ["a"] ∧
    (∀ n, n ∈ missing_names [⟨"a", "uint256"⟩, ⟨"b", "uint256"⟩] ["a"] ↔
      n ∈ needed_names [⟨"a", "uint256"⟩, ⟨"b", "uint256"⟩] ∧
        ¬ n ∈ (["a"] : List String)) ∧
    (convertAll (fun _ => none) [⟨"a", "uint256"⟩, ⟨"b", "uint256"⟩] 0
        ["a=1"]).map given_names = .ok ["a"] ∧
    missing_names [⟨"a", "uint256"⟩, ⟨"b", "uint256"⟩] ["a"] = ["b"] :=
  C4_preflight [⟨"a", "uint256"⟩, ⟨"b", "uint256"⟩] ["a"] "view" none false
    (by decide)

/-! ### Claim C10: tokens with two or more equals signs -/

theorem except_map_ne {α β : Type} (e : Except ConvErr α) (f : α → β)
    (he : e ≠ Except.error ConvErr.unpackError) :
    e.map f ≠ Except.error ConvErr.unpackError := by
  cases e with
  | error err => simpa [Except.map] using he
  | ok a => simp [Except.map]

theorem coerceVal_ne_unpack (jsonLoads : String → Option PyValue)
    (type val : String) :
    coerceVal jsonLoads type val ≠ Except.error ConvErr.unpackError := by
  unfold coerceVal
  repeat' split
  all_goals simp

theorem resolveInput_ne_unpack (inputs : List AbiInput) (number : Nat)
    (key : String) :
    resolveInput inputs number key ≠ Except.error ConvErr.unpackError := by
  unfold resolveInput
  repeat' split
  all_goals simp

theorem coerceArg_ne_unpack (jsonLoads : String → Option PyValue)
    (inputs : List AbiInput) (number : Nat) (key val : String) :
    coerceArg jsonLoads inputs number key val ≠
      Except.error ConvErr.unpackError := by
  rcases hr : resolveInput inputs number key with e | ⟨inp, k⟩
  · unfold coerceArg
    rw [hr]
    have h2 := resolveInput_ne_unpack inputs number key
    rw [hr] at h2
    simpa using h2
  · unfold coerceArg
    rw [hr]
    show (match coerceVal jsonLoads inp.type val with
      | Except.error e => Except.error e
      | Except.ok v => Except.ok (k, v)) ≠ Except.error ConvErr.unpackError
    have h2 := coerceVal_ne_unpack jsonLoads inp.type val
    rcases hv : coerceVal jsonLoads inp.type val with e | v
    · rw [hv] at h2
      simpa using h2
    · simp

set_option linter.unnecessarySeqFocus false in
/-- C10: the conversion of one CLI token splits it on every "=" and unpacks
the parts into exactly two names, so a token containing two or more "="
characters raises an unpacking error instead of producing a key/value pair,
while a token with zero or one "=" never fails at that unpacking step. -/
theorem C10_convert_token (jsonLoads : String → Option PyValue)
    (inputs : List AbiInput) (number : Nat) (value : String) :
    (2 ≤ value.toList.count '=' →
      convertOne jsonLoads inputs number value = .error .unpackError) ∧
    (value.toList.count '=' ≤ 1 →
      convertOne jsonLoads inputs number value ≠ .error .unpackError) := by
  constructor
  · intro h2
    have hmem : '=' ∈ value.toList := List.count_pos_iff.1 (by omega)
    have hcontains : value.toList.contains '=' = true := by
      simpa [List.contains] using List.elem_iff.2 hmem
    have hlen : 3 ≤ (pySplit '=' value.toList).length := by
      rw [pySplit_length]; omega
    unfold convertOne
    rw [hcontains]
    simp only [if_true]
    rcases hp : pySplit '=' value.toList with _ | ⟨a, _ | ⟨b, _ | ⟨c, rest⟩⟩⟩ <;>
      rw [hp] at hlen <;> simp_all
  · intro h1
    unfold convertOne
    by_cases hc : value.toList.contains '=' = true
    · have hmem : '=' ∈ value.toList :=
        List.elem_iff.1 (by simpa [List.contains] using hc)
      have hcount : 1 ≤ value.toList.count '=' := List.count_pos_iff.2 hmem
      have hlen : (pySplit '=' value.toList).length = 2 := by
        rw [pySplit_length]; omega
      obtain ⟨a, b, hp⟩ : ∃ a b, pySplit '=' value.toList = [a, b] := by
        rcases hq : pySplit '=' value.toList with _ | ⟨a, _ | ⟨b, _ | ⟨c, r⟩⟩⟩ <;>
            rw [hq] at hlen <;> simp only [List.length] at hlen
        · omega
        · omega
        · exact ⟨a, b, rfl⟩
        · omega
      rw [hc, hp]
      simp only [if_true]
      exact except_map_ne _ _ (coerceArg_ne_unpack jsonLoads inputs number _ _)
    · rw [Bool.not_eq_true] at hc
      rw [hc]
      simp only [Bool.false_eq_true, if_false]
      exact except_map_ne _ _ (coerceArg_ne_unpack jsonLoads inputs number _ _)

/-- C10 witness: the token "a=b=c" is rejected with an unpacking error, and
the tokens "a=1" and "x" are not. -/
theorem C10_convert_token_witness :
    (2 ≤ ("a=b=c" : String).toList.count '=' ∧
      convertOne (fun _ => none) [] 1 "a=b=c" = .error .unpackError) ∧
    (("a=1" : String).toList.count '=' ≤ 1 ∧
      convertOne (fun _ => none) [] 1 "a=1" ≠ .error .unpackError) :=
  ⟨⟨by decide, (C10_convert_token (fun _ => none) [] 1 "a=b=c").1 (by decide)⟩,
   ⟨by decide, (C10_convert_token (fun _ => none) [] 1 "a=1").2 (by decide)⟩⟩

/-! ### Claim C7: history filtering and created-contract extraction -/

theorem take_contracts_eq_filterMap (l : List Receipt) :
    take_contracts l = l.filterMap (fun tx =>
      match tx.contractAddress with
      | some s => if s = "" then none else some s
      | none => none) := by
  induction l with
  | nil => rfl
  | cons tx rest ih =>
    simp only [take_contracts, filter_contract, List.filter_cons,
      List.filterMap_cons] at *
    rcases hca : tx.contractAddress with _ | s
    · simpa [truthyAddress, hca] using ih
    · by_cases hs : s = ""

      · simpa [truthyAddress, hca, hs] using ih
      · simpa [truthyAddress, hca, hs, List.map_cons, Option.getD] using ih

/-- C7 counterexample: a receipt in A's history whose contract address is the
empty string (non-null, but falsy in Python) is dropped by
`take_contracts`, so the yield is not exactly the non-null contract_address
values of the history. -/
theorem C7_counterexample :
    take_contracts (history "0xA" [⟨some "", "0xA", none⟩]) ≠
      (history "0xA" [⟨some "", "0xA", none⟩]).filterMap
        (fun tx => tx.contractAddress) := by
  decide

/-- C7 (amended): `history(A)` keeps exactly the receipts whose
contract_address, from_address or to_address equals A, and
`take_contracts(history(A))` yields exactly the contract_address values among
A's history that are non-null and non-empty (Python truthiness), duplicates
and order preserved. -/
theorem C7_take_contracts (address : String) (txs : List Receipt) :
    (∀ tx, tx ∈ history address txs ↔
      tx ∈ txs ∧ (tx.contractAddress = some address ∨
        tx.fromAddr = address ∨ tx.toAddr = some address)) ∧
    take_contracts (history address txs) =
      (history address txs).filterMap (fun tx =>
        match tx.contractAddress with
        | some s => if s = "" then none else some s
        | none => none) := by
  refine ⟨?_, take_contracts_eq_filterMap _⟩
  intro tx
  simp [history, List.mem_filter, historyHit]

/-! ### Claim C8: response normalization is idempotent and rebuilding -/

mutual

theorem ms_idem : ∀ x : PyObj,
    make_serializable (make_serializable x) = make_serializable x
  | .attrDict kvs => by
    simp only [make_serializable]
    exact congrArg PyObj.pyDict (pairs_idem kvs)
  | .pyDict kvs => by
    simp only [make_serializable]
    exact congrArg PyObj.pyDict (pairs_idem kvs)
  | .hexBytes bs => by simp only [make_serializable]
  | .pyList l => by
    simp only [make_serializable]
    exact congrArg PyObj.pyList (list_idem l)
  | .pyStr s => by simp only [make_serializable]
  | .pyInt n => by simp only [make_serializable]
  | .pyBool b => by simp only [make_serializable]
  | .pyNone => by simp only [make_serializable]

theorem list_idem : ∀ l : List PyObj,
    serializable_list (serializable_list l) = serializable_list l
  | [] => by simp only [serializable_list]
  | x :: xs => by
    simp only [serializable_list]
    rw [ms_idem x, list_idem xs]

theorem pairs_idem : ∀ kvs : List (PyObj × PyObj),
    serializable_pairs (serializable_pairs kvs) = serializable_pairs kvs
  | [] => by simp only [serializable_pairs]
  | (k, v) :: rest => by
    simp only [serializable_pairs]
    rw [ms_idem k, ms_idem v, pairs_idem rest]

end

/-- C8: `make_serializable` is idempotent — applying it twice equals applying
it once, on every input, in particular on already-normalized plain mappings,
sequences and scalars — and it rebuilds rather than mutates: mappings become
plain dictionaries, byte-strings become their hex text, lists are rebuilt
element-wise, and scalar leaves pass through unchanged (the embedding is a
pure function, as the Python rebuilds every container by comprehension). -/
theorem C8_make_serializable_idem (x : PyObj) :
    make_serializable (make_serializable x) = make_serializable x ∧
    (∀ s, make_serializable (.pyStr s) = .pyStr s) ∧
    (∀ n, make_serializable (.pyInt n) = .pyInt n) ∧
    (∀ b, make_serializable (.pyBool b) = .pyBool b) ∧
    make_serializable .pyNone = .pyNone ∧
    (∀ bs, make_serializable (.hexBytes bs) = .pyStr (bytesToHex bs)) ∧
    (∀ kvs, make_serializable (.attrDict kvs) =
      .pyDict (serializable_pairs kvs)) ∧
    (∀ l, make_serializable (.pyList l) = .pyList (serializable_list l)) := by
  exact ⟨ms_idem x, fun s => rfl, fun n => rfl, fun b => rfl, rfl,
    fun bs => rfl, fun kvs => rfl, fun l => rfl⟩

/-! ### Claim C3: walk_blocks walks back to genesis and stops -/

theorem chain_ne_nil {fetch : List Nat → Block} {head : Block}
    {bs : List Block} (hc : Chain fetch head bs) : bs ≠ [] := by
  cases hc <;> simp

theorem chain_head {fetch : List Nat → Block} {head : Block}
    {bs : List Block} (hc : Chain fetch head bs) : bs.head? = some head := by
  cases hc <;> rfl

/-- C3: for a backward chain of blocks ending at the genesis block (the block
whose parent hash is the all-zero sentinel), `walk_blocks` yields exactly
those blocks — starting at the chain head, ending at genesis — and yields
nothing further: the output is the same for every fuel at least the chain
length, so the generator stops after the genesis block. -/
theorem C3_walk_blocks (fetch : List Nat → Block) (head : Block)
    (bs : List Block) (hc : Chain fetch head bs) :
    bs.head? = some head ∧
    (∃ g, bs.getLast? = some g ∧ g.parentHash = genesisSentinel) ∧
    ∀ fuel, bs.length ≤ fuel → walk_blocks fetch fuel head = bs := by
  refine ⟨chain_head hc, ?_, ?_⟩
  · induction hc with
    | genesis b hg => exact ⟨b, rfl, hg⟩
    | step b bs hng htail ih =>
      obtain ⟨g, hgl, hgp⟩ := ih
      refine ⟨g, ?_, hgp⟩
      have hne : bs ≠ [] := chain_ne_nil htail
      rcases bs with _ | ⟨b', bs'⟩
      · exact absurd rfl hne
      · rw [List.getLast?_cons_cons]
        exact hgl
  · induction hc with
    | genesis b hg =>
      intro fuel hf
      rcases fuel with _ | fuel
      · simp at hf
      · simp [walk_blocks, hg]
    | step b bs hng htail ih =>
      intro fuel hf
      rcases fuel with _ | fuel
      · simp at hf
      · have hlen : bs.length ≤ fuel := by
          simp only [List.length_cons] at hf
          omega
        simp [walk_blocks, hng, ih fuel hlen]

/-- A two-block example chain: `exHead` links to `exGenesis`, whose parent
hash is the all-zero sentinel. -/
def exGenesis : Block := ⟨[1], genesisSentinel, []⟩

def exHead : Block := ⟨[2], [1], []⟩

def exFetch : List Nat → Block := fun h => if h = [1] then exGenesis else exHead

theorem exChain : Chain exFetch exHead [exHead, exGenesis] := by
  have hstep : Chain exFetch (exFetch exHead.parentHash) [exGenesis] := by
    have : exFetch exHead.parentHash = exGenesis := by decide
    rw [this]
    exact Chain.genesis exGenesis rfl
  exact Chain.step exHead [exGenesis] (by decide) hstep

/-- C3 witness: the two-block chain is walked head first, genesis last, with
any sufficient fuel. -/
theorem C3_walk_blocks_witness :
    ([exHead, exGenesis] : List Block).head? = some exHead ∧
    (∃ g, ([exHead, exGenesis] : List Block).getLast? = some g ∧
      g.parentHash = genesisSentinel) ∧
    ∀ fuel, ([exHead, exGenesis] : List Block).length ≤ fuel →
      walk_blocks exFetch fuel exHead = [exHead, exGenesis] :=
  C3_walk_blocks exFetch exHead [exHead, exGenesis] exChain

/-! ### Claim C1: walk_transactions stops at a block boundary -/

theorem prefixTotals_ge {α : Type} (bs : List (List α)) :
    ∀ (a : Nat) (c : Nat), c ∈ prefixTotals a bs → a ≤ c := by
  induction bs with
  | nil => intro a c hc; simp [prefixTotals] at hc
  | cons b rest ih =>
    intro a c hc
    simp only [prefixTotals, List.mem_cons] at hc
    rcases hc with rfl | hc
    · omega
    · have := ih (a + b.length) c hc
      omega

theorem totalTxs_cons {α : Type} (b : List α) (rest : List (List α)) :
    totalTxs (b :: rest) = b.length + totalTxs rest := by
  simp [totalTxs]

theorem wt_from_length {α : Type} (l : Nat) (hl : 1 ≤ l) :
    ∀ (bs : List (List α)) (a : Nat),
    (walk_transactions_from (some l) a bs).length =
      match (prefixTotals a bs).find? (fun c => decide (l ≤ c)) with
      | some c => c - a
      | none => totalTxs bs := by
  intro bs
  induction bs with
  | nil =>
    intro a
    simp [walk_transactions_from, prefixTotals, totalTxs, List.find?]
  | cons b rest ih =>
    intro a
    by_cases hstop : l ≤ a + b.length
    · have hck : stopCheck (some l) (a + b.length) = true := by
        simp [stopCheck]
        omega
      have hwalk : walk_transactions_from (some l) a (b :: rest) = b := by
        simp [walk_transactions_from, hck]
      have hfind : (prefixTotals a (b :: rest)).find?
          (fun c => decide (l ≤ c)) = some (a + b.length) := by
        simp [prefixTotals, List.find?_cons, hstop]
      rw [hwalk, hfind]
      show b.length = a + b.length - a
      omega
    · have hck : stopCheck (some l) (a + b.length) = false := by
        simp [stopCheck]
        omega
      have hwalk : walk_transactions_from (some l) a (b :: rest) =
          b ++ walk_transactions_from (some l) (a + b.length) rest := by
        simp [walk_transactions_from, hck]
      have hfind2 : (prefixTotals a (b :: rest)).find?
          (fun c => decide (l ≤ c)) =
          (prefixTotals (a + b.length) rest).find? (fun c => decide (l ≤ c)) := by
        simp [prefixTotals, List.find?_cons, hstop]
      rw [hwalk, hfind2, List.length_append, ih (a + b.length)]
      rcases hf : (prefixTotals (a + b.length) rest).find?
          (fun c => decide (l ≤ c)) with _ | c
      · show b.length + totalTxs rest = totalTxs (b :: rest)
        rw [totalTxs_cons]
      · have hge := prefixTotals_ge rest (a + b.length) c
          (List.mem_of_find?_eq_some hf)
        show b.length + (c - (a + b.length)) = c - a
        omega

theorem wt_unlimited {α : Type} :
    ∀ (bs : List (List α)) (a : Nat),
    walk_transactions_from none a bs = bs.flatten := by
  intro bs
  induction bs with
  | nil => intro a; simp [walk_transactions_from]
  | cons b rest ih =>
    intro a
    simp [walk_transactions_from, stopCheck, ih]

theorem wt_zero_limit {α : Type} :
    ∀ (bs : List (List α)) (a : Nat),
    walk_transactions_from (some 0) a bs = bs.flatten := by
  intro bs
  induction bs with
  | nil => intro a; simp [walk_transactions_from]
  | cons b rest ih =>
    intro a
    simp [walk_transactions_from, stopCheck, ih]

/-- C1 counterexample: with `limit = 0` the claim's formula predicts stopping
at the first block boundary (1 receipt here), but `if limit and ...` treats 0
as falsy, so the walk yields every receipt (2 here). -/
theorem C1_counterexample :
    (walk_transactions [[0], [1]] (some 0)).length ≠
      specCount 0 [[0], [1]] := by
  decide

/-- C1 (amended): for every limit ≥ 1, the number of receipts yielded by
`walk_transactions(limit)` is the smallest cumulative count at a block
boundary that is ≥ limit (or exactly the total available, if the chain has
fewer receipts): the stop check runs only after a whole block's receipts have
been emitted, so the yield may exceed the limit by up to one block. With no
limit — and likewise with limit = 0, which Python's `if limit and ...` treats
as no limit — every receipt is yielded. -/
theorem C1_walk_transactions {α : Type} (blockTxs : List (List α)) (l : Nat)
    (hl : 1 ≤ l) :
    (walk_transactions blockTxs (some l)).length = specCount l blockTxs ∧
    walk_transactions blockTxs none = blockTxs.flatten ∧
    walk_transactions blockTxs (some 0) = blockTxs.flatten := by
  refine ⟨?_, wt_unlimited blockTxs 0, wt_zero_limit blockTxs 0⟩
  have h := wt_from_length l hl blockTxs 0
  rw [walk_transactions, h, specCount]
  rcases hfind : (prefixTotals 0 blockTxs).find? (fun c => decide (l ≤ c))
      with _ | c
  · rfl
  · simp

/-- C1 witness: with limit 2 over blocks of sizes 1, 1, 2, the walk stops at
the boundary count 2; without a limit (or with limit 0) all 4 receipts come
out. -/
theorem C1_walk_transactions_witness :
    (walk_transactions [[0], [1], [2, 3]] (some 2)).length =
      specCount 2 [[0], [1], [2, 3]] ∧
    walk_transactions [[0], [1], [2, 3]] none = [[0], [1], [2, 3]].flatten ∧
    walk_transactions [[0], [1], [2, 3]] (some 0) = [[0], [1], [2, 3]].flatten :=
  C1_walk_transactions [[0], [1], [2, 3]] 2 (by norm_num)

end EthExt
